import Mathlib

/-!
Shallow embedding of the pysdbd database abstraction layer (condition
algebra, validation pipeline, table CRUD planning and the transaction
manager) together with proofs about the behaviour its specification
describes.  Every definition mirrors a function of the Python source
(`pysdbd/condition.py`, `pysdbd/validate.py`, `pysdbd/Table.py`,
`pysdbd/MysqlDriver.py`, `pysdbd/SqliteDriver.py`); external
collaborators (the SQL engine, `re`, `datetime`) are abstracted as
parameters, exactly as the specification declares them out of scope.
-/

namespace Pysdbd

/-! ### Transaction manager

`MysqlDriver.start_transaction` / `commit` / `rollback` keep two pieces of
per-connection state in nested-transaction mode: `transaction_cnt` and
`nested_rollback`.  The counter is modelled as an integer because the code
decrements it without any lower bound.  Engine-level calls
(`con.start_transaction()`, `con.commit()`, `con.rollback()`, statement
execution) are recorded as a trace of `EngineOp`s. -/

/-- One operation issued to the underlying database connection. -/
inductive EngineOp where
  | begin
  | commit
  | rollback
  | exec (rows : Nat)
  deriving DecidableEq, Repr

/-- Per-connection transaction state of `MysqlDriver` in nested mode:
`self.transaction_cnt` and `self.nested_rollback`. -/
structure TransState where
  transaction_cnt : Int
  nested_rollback : Bool
  deriving DecidableEq, Repr

/-- State of a freshly opened connection: depth `0`, no sticky rollback. -/
def TransState.init : TransState := { transaction_cnt := 0, nested_rollback := false }

/-- `MysqlDriver.start_transaction`, nested-transaction branch:
if `transaction_cnt == 0`, clear `nested_rollback` and begin an engine
transaction; in all cases increment `transaction_cnt`. -/
def startNested (s : TransState) : TransState × List EngineOp :=
  if s.transaction_cnt = 0 then
    ({ transaction_cnt := s.transaction_cnt + 1, nested_rollback := false }, [EngineOp.begin])
  else
    ({ s with transaction_cnt := s.transaction_cnt + 1 }, [])

/-- `MysqlDriver.rollback`, nested-transaction branch: set
`nested_rollback = True` unconditionally; if `transaction_cnt == 1` issue an
engine rollback; decrement `transaction_cnt`. -/
def rollbackNested (s : TransState) : TransState × List EngineOp :=
  let s1 : TransState := { s with nested_rollback := true }
  if s1.transaction_cnt = 1 then
    ({ s1 with transaction_cnt := s1.transaction_cnt - 1 }, [EngineOp.rollback])
  else
    ({ s1 with transaction_cnt := s1.transaction_cnt - 1 }, [])

/-- The error message raised by `MysqlDriver.commit` when a commit at depth 1
finds `nested_rollback` set. -/
def commitDespiteRollbackMsg : String :=
  "Transaction was commited despite previous rollback in nested transaction"

/-- `MysqlDriver.commit`, nested-transaction branch: at `transaction_cnt == 1`
with `nested_rollback` set, call `self.rollback()` (which itself issues the
engine rollback and decrements the counter), decrement the counter again and
raise; at depth 1 without sticky rollback, issue the engine commit and
decrement; at any other depth just decrement. -/
def commitNested (s : TransState) : TransState × List EngineOp × Option String :=
  if s.transaction_cnt = 1 then
    if s.nested_rollback then
      let r := rollbackNested s
      ({ r.1 with transaction_cnt := r.1.transaction_cnt - 1 }, r.2,
        some commitDespiteRollbackMsg)
    else
      ({ s with transaction_cnt := s.transaction_cnt - 1 }, [EngineOp.commit], none)
  else
    ({ s with transaction_cnt := s.transaction_cnt - 1 }, [], none)

/-- A call made by the caller against the transaction manager. -/
inductive TOp where
  | start
  | commit
  | rollback
  deriving DecidableEq, Repr

/-- One manager call in nested mode: resulting state, engine trace, and the
error raised by the call (if any). -/
def stepNested (s : TransState) : TOp → TransState × List EngineOp × Option String
  | TOp.start => ((startNested s).1, (startNested s).2, none)
  | TOp.commit => commitNested s
  | TOp.rollback => ((rollbackNested s).1, (rollbackNested s).2, none)

/-- Run a sequence of caller operations in nested mode, collecting the engine
trace and every raised error message.  State mutation survives a raise (the
Python attributes are updated before the `raise` statement), and the caller is
free to keep calling after catching an error, as the repository tests do. -/
def runNested (s : TransState) : List TOp → TransState × List EngineOp × List String
  | [] => (s, [], [])
  | op :: ops =>
    let r1 := stepNested s op
    let r2 := runNested r1.1 ops
    (r2.1, r1.2.1 ++ r2.2.1, r1.2.2.toList ++ r2.2.2)

/-- Replay semantics of the engine trace: rows written inside a transaction
are pending until an engine commit persists them; an engine rollback discards
them. -/
structure EngineDB where
  pending : Nat
  persisted : Nat
  deriving DecidableEq, Repr

/-- Effect of one engine operation on the engine state. -/
def EngineDB.step (db : EngineDB) : EngineOp → EngineDB
  | EngineOp.begin => db
  | EngineOp.commit => { pending := 0, persisted := db.persisted + db.pending }
  | EngineOp.rollback => { db with pending := 0 }
  | EngineOp.exec n => { db with pending := db.pending + n }

/-- Replay a full engine trace from the empty database. -/
def replay (ops : List EngineOp) : EngineDB :=
  ops.foldl EngineDB.step { pending := 0, persisted := 0 }

/-! ### Timeout-mode `start_transaction` (`SqliteDriver.start_transaction`)

The loop body attempts `BEGIN TRANSACTION`; on the busy error it sleeps 0.1 s
and retries while `time.time() < t0 + timeout`; on any other error it breaks
out at once.  Falling out of the loop raises an error naming the timeout and
the buffered engine message.  Real time is modelled by its idealisation: the
k-th attempt happens at elapsed time `k / 10` seconds (one 0.1 s sleep per
busy retry), so attempt `k` runs iff `(k : ℚ) / 10 < timeout`. -/

/-- The sqlite engine message recognised as "transaction already active". -/
def busyMsg : String := "cannot start a transaction within a transaction"

/-- `Driver.transaction_timeout`: default timeout in seconds. -/
def transaction_timeout : ℚ := 3

/-- Outcome of one `BEGIN TRANSACTION` attempt, as reported by the engine. -/
inductive StartResp where
  | ok
  | err (msg : String)
  deriving DecidableEq, Repr

/-- Result of `start_transaction` in timeout mode, with the number of engine
attempts that were made. -/
inductive StartOutcome where
  | started (attempts : Nat)
  | failed (msg : String) (attempts : Nat)
  | attrError (attempts : Nat)
  deriving DecidableEq, Repr

/-- The message of the error raised after the retry loop ends without
success: it names the timeout bound and the buffered engine message. -/
def startFailMsg (timeout : ℚ) (emsg : String) : String :=
  "Failed to start transaction (timeout=" ++ toString timeout ++ "s): " ++ emsg

/-- Number of loop iterations: attempt `k` runs iff `(k : ℚ) / 10 < timeout`,
i.e. iff `k < ⌈10 * timeout⌉₊`. -/
def maxAttempts (timeout : ℚ) : Nat := ⌈(10 * timeout : ℚ)⌉₊

/-- The retry loop: `fuel` remaining iterations, `k` attempts already made,
`last` the buffered engine message (`exc_buf`).  Returns whether the
transaction started, the buffered message, and the attempts made. -/
def startLoop (resp : Nat → StartResp) : Nat → Nat → Option String → Bool × Option String × Nat
  | 0, k, last => (false, last, k)
  | fuel + 1, k, last =>
    match resp k with
    | StartResp.ok => (true, last, k + 1)
    | StartResp.err m =>
      if m = busyMsg then startLoop resp fuel (k + 1) (some m)
      else (false, some m, k + 1)

/-- `SqliteDriver.start_transaction` (timeout mode): defaults the timeout to
`transaction_timeout`, runs the retry loop, and on failure raises the error
built from the buffered engine message (`attrError` models the Python
`AttributeError` on `exc_buf = None` when the loop never ran). -/
def sqliteStartTransaction (timeout : Option ℚ) (resp : Nat → StartResp) : StartOutcome :=
  let t := timeout.getD transaction_timeout
  match startLoop resp (maxAttempts t) 0 none with
  | (true, _, k) => StartOutcome.started k
  | (false, some m, k) => StartOutcome.failed (startFailMsg t m) k
  | (false, none, k) => StartOutcome.attrError k

/-! ### Condition algebra (`pysdbd/condition.py`)

`Condition` is the base class (empty serialization, no parameters); `And`/`Or`
are combinators over child conditions; `Null`/`NotNull` check a column for
NULL; `Eq` and its subclasses (`NotEq`, `Le`, `Gt`, `Leq`, `Geq`, `Re`,
`Like`) compare a column against one value or a list of alternative values.
Serialization is modelled as the token list the string concatenation emits,
with the placeholder kept as its own token; rendering the tokens with the
driver's placeholder string yields the exact Python string. -/

/-- A parameter value, as Python passes it around (`None`, `str`, `int`,
`bool`; floats are written as strings in this model). -/
inductive Val where
  | null
  | str (s : String)
  | int (n : Int)
  | bool (b : Bool)
  deriving DecidableEq, Repr

/-- Combinator operator (`And.operator = "AND"`, `Or.operator = "OR"`). -/
inductive CmbOp where
  | and
  | or
  deriving DecidableEq, Repr

/-- The SQL keyword of a combinator operator. -/
def CmbOp.str : CmbOp → String
  | CmbOp.and => "AND"
  | CmbOp.or => "OR"

/-- Comparison operator of `Eq` and its subclasses. -/
inductive CmpOp where
  | eq
  | ne
  | lt
  | gt
  | le
  | ge
  | regexp
  | like
  deriving DecidableEq, Repr

/-- The `operator` attribute of each comparison class. -/
def CmpOp.str : CmpOp → String
  | CmpOp.eq => "="
  | CmpOp.ne => "!="
  | CmpOp.lt => "<"
  | CmpOp.gt => ">"
  | CmpOp.le => "<="
  | CmpOp.ge => ">="
  | CmpOp.regexp => "REGEXP"
  | CmpOp.like => "LIKE"

/-- A predicate node.  `cmp op col vs` stores the value list after
`Eq.__init__` normalisation: a scalar argument becomes the one-element list
`[v]`, a list argument is kept, and `params` wraps each entry as a
one-element parameter row. -/
inductive Cond where
  | base
  | nullChk (neg : Bool) (col : String)
  | cmp (op : CmpOp) (col : String) (vs : List Val)
  | comb (op : CmbOp) (cs : List Cond)
  deriving Repr

/-- `Eq(col, value)` with a scalar argument. -/
def condEq (col : String) (v : Val) : Cond := Cond.cmp CmpOp.eq col [v]

/-- `Eq(col, value)` with a list argument. -/
def condEqList (col : String) (vs : List Val) : Cond := Cond.cmp CmpOp.eq col vs

/-- One emitted token: a literal string fragment or the placeholder. -/
inductive STok where
  | lit (s : String)
  | ph
  deriving DecidableEq, Repr

/-- `quote(self.col) if quote else self.col`. -/
def quoteApp (quote : Option (String → String)) (col : String) : String :=
  match quote with
  | some q => q col
  | none => col

mutual
/-- `serialize(nested, quote, placeholder)` of each condition class, as the
emitted token list.  The `Condition` base class returns the empty string; a
combinator returns the empty string when outermost with no children and
otherwise joins the children (serialized nested) with its operator inside
parentheses, prefixed by `" WHERE "` only when outermost; `Null`/`NotNull`
emit `col IS [NOT] NULL` with no placeholder; a comparison emits
`col op placeholder`. -/
def serializeToks : Cond → Bool → Option (String → String) → List STok
  | Cond.base, _, _ => []
  | Cond.nullChk neg col, nested, q =>
    (if nested then [] else [STok.lit " WHERE "]) ++
      [STok.lit (quoteApp q col ++ " " ++ (if neg then "IS NOT" else "IS") ++ " NULL")]
  | Cond.cmp op col _, nested, q =>
    (if nested then [] else [STok.lit " WHERE "]) ++
      [STok.lit (quoteApp q col ++ " " ++ op.str ++ " "), STok.ph]
  | Cond.comb op cs, nested, q =>
    if !nested && cs.isEmpty then []
    else
      (if nested then [] else [STok.lit " WHERE "]) ++ [STok.lit "("] ++
        serializeJoin op cs q ++ [STok.lit ")"]

/-- The combinator loop body: children serialized with `nested = True`,
separated by `" OP "`. -/
def serializeJoin : CmbOp → List Cond → Option (String → String) → List STok
  | _, [], _ => []
  | _, [c], q => serializeToks c true q
  | op, c :: c' :: cs, q =>
    serializeToks c true q ++ [STok.lit (" " ++ op.str ++ " ")] ++
      serializeJoin op (c' :: cs) q
end

/-- Render a token list with a concrete placeholder string; this is the
string `serialize` returns. -/
def renderToks (placeholder : String) (ts : List STok) : String :=
  ts.foldl (fun acc t => acc ++ match t with | STok.lit s => s | STok.ph => placeholder) ""

/-- Number of placeholder tokens in a token list. -/
def phCount (ts : List STok) : Nat :=
  ts.countP (fun t => match t with | STok.ph => true | _ => false)

/-- Failure of `params()`: the Python `IndexError` raised by
`cond.params()[-1]` when a child produced zero parameter rows. -/
inductive PErr where
  | indexError
  deriving DecidableEq, Repr

/-- `cond.params()[i] if i < len(cond.params()) else cond.params()[-1]`:
row `i` of a child's parameter rows, repeating the last row, and the Python
`IndexError` when there is no last row. -/
def pickRow (ps : List (List Val)) (i : Nat) : Except PErr (List Val) :=
  if h : i < ps.length then Except.ok (ps.get ⟨i, h⟩)
  else
    match ps.getLast? with
    | some r => Except.ok r
    | none => Except.error PErr.indexError

/-- Inner loop of `And.params`: concatenate, over the children in
declaration order, the picked row `i`. -/
def buildRow (pss : List (List (List Val))) (i : Nat) : Except PErr (List Val) :=
  match pss with
  | [] => Except.ok []
  | ps :: rest =>
    match pickRow ps i, buildRow rest i with
    | Except.error e, _ => Except.error e
    | Except.ok _, Except.error e => Except.error e
    | Except.ok r, Except.ok rs => Except.ok (r ++ rs)

/-- Outer loop of `And.params`: one output row per `i in range(N_sets)`. -/
def buildRows (pss : List (List (List Val))) : List Nat → Except PErr (List (List Val))
  | [] => Except.ok []
  | i :: is =>
    match buildRow pss i, buildRows pss is with
    | Except.error e, _ => Except.error e
    | Except.ok _, Except.error e => Except.error e
    | Except.ok r, Except.ok rs => Except.ok (r :: rs)

/-- `N_sets`: starts at 1 and is raised to any larger child row count. -/
def maxSets (pss : List (List (List Val))) : Nat :=
  pss.foldl (fun a ps => if ps.length > a then ps.length else a) 1

/-- `And.params` given the children's parameter-row lists. -/
def combineParams (pss : List (List (List Val))) : Except PErr (List (List Val)) :=
  buildRows pss (List.range (maxSets pss))

mutual
/-- `params()` of each condition class: the base class returns `[]`,
`Null`/`NotNull` return `[[]]`, a comparison returns one single-element row
per stored value, and a combinator reconciles its children's rows with the
row-repeat rule of `And.params` (propagating the `IndexError` a child with
zero rows causes). -/
def condParams : Cond → Except PErr (List (List Val))
  | Cond.base => Except.ok []
  | Cond.nullChk _ _ => Except.ok [[]]
  | Cond.cmp _ _ vs => Except.ok (vs.map fun v => [v])
  | Cond.comb _ cs =>
    match condParamsList cs with
    | Except.error e => Except.error e
    | Except.ok pss => combineParams pss

/-- `params()` of every child of a combinator, in declaration order. -/
def condParamsList : List Cond → Except PErr (List (List (List Val)))
  | [] => Except.ok []
  | c :: cs =>
    match condParams c, condParamsList cs with
    | Except.error e, _ => Except.error e
    | Except.ok _, Except.error e => Except.error e
    | Except.ok p, Except.ok ps => Except.ok (p :: ps)
end

mutual
/-- `cols()` of each condition class: all columns occurring in the tree, in
order, duplicates kept. -/
def condCols : Cond → List String
  | Cond.base => []
  | Cond.nullChk _ col => [col]
  | Cond.cmp _ col _ => [col]
  | Cond.comb _ cs => condColsList cs

/-- `cols()` concatenated over a combinator's children. -/
def condColsList : List Cond → List String
  | [] => []
  | c :: cs => condCols c ++ condColsList cs
end

mutual
/-- Structural count of the placeholders a condition serializes to (0 for
the base class and null checks, 1 per comparison, sum over a combinator's
children). -/
def condPh : Cond → Nat
  | Cond.base => 0
  | Cond.nullChk _ _ => 0
  | Cond.cmp _ _ _ => 1
  | Cond.comb _ cs => condPhList cs

/-- Sum of `condPh` over a list of conditions. -/
def condPhList : List Cond → Nat
  | [] => 0
  | c :: cs => condPh c + condPhList cs
end

/-- The row-repeat cross rule exactly as the specification words it
(**modelled from the spec, for comparison with the code**): `N` is the
maximum of the children's row counts; output row `i` concatenates, for each
child in declaration order, the child's row `i` when `i` is in range and
otherwise the child's last row. -/
def crossRuleSpec (pss : List (List (List Val))) : List (List Val) :=
  let N := (pss.map List.length).foldl max 0
  (List.range N).map fun i =>
    (pss.map fun ps => if h : i < ps.length then ps.get ⟨i, h⟩ else ps.getLastD []).flatten

/-! ### Field validation (`pysdbd/validate.py`)

`validate(col, value, fmt, errors)` checks and transforms one value.  The
format tags are the ones the module implements (one `_v_foo` function per
tag, plus the `r_`-prefixed user regex and the tags skipped by the loop).
The Python `re` and `datetime` collaborators behind the user regex and the
date/datetime checks are abstracted as boolean functions, exactly as the
specification treats per-field format validation as an external pass/fail
collaborator; the integer/float/bool/length checks are implemented
concretely. -/

/-- A format/constraint tag of a column definition. -/
inductive Fmt where
  | not_null
  | not_empty
  | unique
  | text
  | regex (r : String)
  | date
  | datetime
  | int
  | uint
  | float
  | ufloat
  | text100
  | bool
  deriving DecidableEq, Repr

/-- The external collaborators of `validate`: `re.match` on a user regex
(anchored as `^(...)$`) and `datetime.strptime` success for the two formats. -/
structure ExtVal where
  rmatch : String → String → Bool
  dateOk : String → Bool
  datetimeOk : String → Bool

/-- Python `str(value)` for the values this model carries. -/
def pyStr : Val → String
  | Val.null => "None"
  | Val.str s => s
  | Val.int n => toString n
  | Val.bool b => if b then "True" else "False"

/-- `[0-9]+` on a character list. -/
def digitsNonempty (cs : List Char) : Bool :=
  !cs.isEmpty && cs.all Char.isDigit

/-- `^([+-])?[0-9]+$` (the `_v_int` regex). -/
def isIntStr (s : String) : Bool :=
  match s.data with
  | [] => false
  | c :: cs =>
    if c = '+' || c = '-' then digitsNonempty cs else digitsNonempty (c :: cs)

/-- `^[0-9]+$` (the `_v_uint` regex). -/
def isUintStr (s : String) : Bool :=
  digitsNonempty s.data

/-- `[0-9]+(\.[0-9]+)?` on a character list. -/
def floatBody (cs : List Char) : Bool :=
  match cs.span Char.isDigit with
  | (ds, []) => !ds.isEmpty
  | (ds, c :: rest) => !ds.isEmpty && c = '.' && digitsNonempty rest

/-- `^([+-])?[0-9]+(\.[0-9]+)?$` (the `_v_float` regex). -/
def isFloatStr (s : String) : Bool :=
  match s.data with
  | [] => false
  | c :: cs =>
    if c = '+' || c = '-' then floatBody cs else floatBody (c :: cs)

/-- `^[0-9]+(\.[0-9]+)?$` (the `_v_ufloat` regex). -/
def isUfloatStr (s : String) : Bool :=
  floatBody s.data

/-- Python `value.lower()`, modelled as a character-wise lowercase map (the
values `_v_bool` compares against are ASCII). -/
def pyLower (s : String) : String :=
  String.mk (s.data.map Char.toLower)

/-- The value modification `_v_float` / `_v_ufloat` perform before their
check: replace every `","` by `"."`, then append `"0"` after a trailing
`"."`. -/
def floatNorm (s : String) : String :=
  let t := s.replace "," "."
  if t.endsWith "." then t ++ "0" else t

/-- One iteration of the format loop of `validate`: the skipped tags leave
the state alone, every other tag runs its `_v_foo` function (or the user
regex), which may overwrite the error entry and, for `float`/`ufloat`/`bool`,
replace the value. -/
def vStep (ext : ExtVal) (st : String × Option String) : Fmt → String × Option String
  | Fmt.not_null => st
  | Fmt.not_empty => st
  | Fmt.unique => st
  | Fmt.text => st
  | Fmt.regex r => if ext.rmatch r st.1 then st else (st.1, some "INVALID_REGEX")
  | Fmt.date => if ext.dateOk st.1 then st else (st.1, some "INVALID_DATE")
  | Fmt.datetime => if ext.datetimeOk st.1 then st else (st.1, some "INVALID_DATETIME")
  | Fmt.int => if isIntStr st.1 then st else (st.1, some "INVALID_INT")
  | Fmt.uint => if isUintStr st.1 then st else (st.1, some "INVALID_UINT")
  | Fmt.float =>
    let v := floatNorm st.1
    if isFloatStr v then (v, st.2) else (v, some "INVALID_FLOAT")
  | Fmt.ufloat =>
    let v := floatNorm st.1
    if isUfloatStr v then (v, st.2) else (v, some "INVALID_UFLOAT")
  | Fmt.text100 => if st.1.length ≤ 100 then st else (st.1, some "INVALID_TEXT100")
  | Fmt.bool =>
    if pyLower st.1 = "true" || st.1 = "1" then ("1", st.2)
    else if pyLower st.1 = "false" || st.1 = "0" then ("0", st.2)
    else (st.1, some "INVALID_BOOL")

/-- `validate(col, value, fmt, errors)`: `None` with `not_null` is an error
(the original value is returned); plain `None` is passed through untouched;
otherwise the value becomes `str(value)`, the empty string is checked
against `not_empty` and skips the format loop, and a non-empty string runs
every format tag in order.  The second component is the error entry the call
leaves in `errors[col]`. -/
def validate (ext : ExtVal) (value : Val) (fmt : List Fmt) : Val × Option String :=
  if Fmt.not_null ∈ fmt ∧ value = Val.null then (value, some "NONE_FIELD")
  else if value = Val.null then (Val.null, none)
  else
    let s := pyStr value
    if Fmt.not_empty ∈ fmt ∧ s = "" then (Val.str s, some "EMPTY_FIELD")
    else if s = "" then (Val.str s, none)
    else
      let r := fmt.foldl (vStep ext) (s, none)
      (Val.str r.1, r.2)

/-! ### Table operations (`pysdbd/Table.py`)

A table is driven by its `columns` definition (the Relation Descriptor's
column map).  Rows and error dicts are ordered association lists, mirroring
Python dict insertion order.  The execution engine is abstracted: the only
engine behaviours the claims need are the `ret="id"` result of
`SqliteDriver.execute` and the post-insert `count` of the uniqueness
check. -/

/-- One data row: column name to value, in insertion order. -/
abbrev Row := List (String × Val)

/-- One per-row error dict: column name to error code, in insertion order. -/
abbrev ErrDict := List (String × String)

/-- The `columns` definition of a `Table` subclass. -/
abbrev Schema := List (String × List Fmt)

/-- The keys of a row, in order. -/
def rowKeys (r : Row) : List String := r.map Prod.fst

/-- One step of `Table._validate_data`: a value whose column is not declared
is skipped; a declared column's value is validated, extending the validated
row and (on failure) the error dict. -/
def vdStep (ext : ExtVal) (schema : Schema) (acc : Row × ErrDict) (p : String × Val) :
    Row × ErrDict :=
  match List.lookup p.1 schema with
  | none => acc
  | some fmt =>
    let r := validate ext p.2 fmt
    (acc.1 ++ [(p.1, r.1)],
      match r.2 with
      | none => acc.2
      | some e => acc.2 ++ [(p.1, e)])

/-- `Table._validate_data`: select the declared columns from the row (values
for undeclared columns are skipped), validate each value, collect the
validated row and the error dict. -/
def validateData (ext : ExtVal) (schema : Schema) (data : Row) : Row × ErrDict :=
  data.foldl (vdStep ext schema) ([], [])

/-- The errors `Table._split_col_value` and `Table.create` raise. -/
inductive TableErr where
  | validation (errors : List ErrDict)
  | sameColumns
  | noValidColumns
  deriving DecidableEq, Repr

/-- The message of each `Table` error (`ValidationError` carries
"Validation Error"). -/
def TableErr.msg : TableErr → String
  | TableErr.validation _ => "Validation Error"
  | TableErr.sameColumns => "Data sets have not the same columns"
  | TableErr.noValidColumns => "No valid columns available"

/-- The loop of `Table._split_col_value`: validate each row, skip rows with
validation errors, take the column list from the first error-free row, and
for every later error-free row raise the same-columns error as soon as one
of those columns is missing; extract the values of the reference columns in
order. -/
def splitGo (ext : ExtVal) (schema : Schema) :
    List Row → List Row → List String → List (List Val) → List ErrDict →
    Except TableErr (List Row × List String × List (List Val) × List ErrDict)
  | [], validated, cols, values, errors => Except.ok (validated, cols, values, errors)
  | d :: rest, validated, cols, values, errors =>
    let r := validateData ext schema d
    let errors := errors ++ [r.2]
    if r.2 ≠ [] then splitGo ext schema rest validated cols values errors
    else if cols = [] then
      let cols := rowKeys r.1
      splitGo ext schema rest (validated ++ [r.1]) cols
        (values ++ [cols.map fun c => (List.lookup c r.1).getD Val.null]) errors
    else if cols.all fun c => (List.lookup c r.1).isSome then
      splitGo ext schema rest (validated ++ [r.1]) cols
        (values ++ [cols.map fun c => (List.lookup c r.1).getD Val.null]) errors
    else Except.error TableErr.sameColumns

/-- `Table._split_col_value`: run the loop, then raise `ValidationError` if
any row had validation errors, then raise if no valid columns were found;
return the validated rows, the columns and the extracted values. -/
def splitColValue (ext : ExtVal) (schema : Schema) (data : List Row) :
    Except TableErr (List Row × List String × List (List Val)) :=
  match splitGo ext schema data [] [] [] [] with
  | Except.error e => Except.error e
  | Except.ok (validated, cols, values, errors) =>
    if errors.all (fun e => e = []) then
      if cols = [] then Except.error TableErr.noValidColumns
      else Except.ok (validated, cols, values)
    else Except.error (TableErr.validation errors)

/-- The `ret="id"` result of `SqliteDriver.execute` on an INSERT: a single
parameter row goes through `cursor.execute` and `cursor.lastrowid` is the
id the engine assigned to the new row; several parameter rows go through
`cursor.executemany`, after which `cursor.lastrowid` is `None`. -/
def sqliteExecuteId (nextId : Int) (params : List (List Val)) : Option Int :=
  if params.length > 1 then none else some nextId

/-- `Table._validate2` without a caller validator (`cb_validate=None`): for
each inserted row and each declared column tagged `unique` that the row
contains, flag `NOT_UNIQUE` when the engine's post-insert count of rows
matching `Eq(col, d[col])` exceeds 1.  `countAfter` abstracts that engine
count. -/
def validate2 (schema : Schema) (countAfter : String → Val → Nat) (data : List Row) :
    List ErrDict :=
  data.map fun d =>
    schema.foldl
      (fun e p =>
        match List.lookup p.1 d with
        | some v =>
          if Fmt.unique ∈ p.2 then
            if countAfter p.1 v > 1 then e ++ [(p.1, "NOT_UNIQUE")] else e
          else e
        | none => e)
      []

/-- Result of `Table.create`: the returned value (or raised error) and
whether any SQL reached the engine. -/
structure CreateResult where
  result : Except TableErr (Option Int)
  engineTouched : Bool
  deriving Repr

/-- `Table.create(data)`: split the rows into columns and values (any error
here is raised before the INSERT reaches the engine), issue one INSERT with
the values as the statement's parameter rows and keep its `ret="id"` result,
run the post-insert validation (its failure is raised after the rows are
already persisted), and return the id result. -/
def create (ext : ExtVal) (schema : Schema) (countAfter : String → Val → Nat)
    (nextId : Int) (data : List Row) : CreateResult :=
  match splitColValue ext schema data with
  | Except.error e => { result := Except.error e, engineTouched := false }
  | Except.ok (validated, _, values) =>
    let ids := sqliteExecuteId nextId values
    let errs := validate2 schema countAfter validated
    if errs.all (fun e => e = []) then
      { result := Except.ok ids, engineTouched := true }
    else
      { result := Except.error (TableErr.validation errs), engineTouched := true }

/-- A concrete instantiation of the external validation collaborators, used
by the concrete witnesses (none of them exercise a user regex or a date
check). -/
def extNone : ExtVal :=
  { rmatch := fun _ _ => false, dateOk := fun _ => false, datetimeOk := fun _ => false }

/-! ## Theorems -/

/-! ### Transaction manager claims -/

/-- C1: In nested-transaction mode, a commit call made at nesting depth 1 on
a connection whose sticky-rollback flag is set does not issue an engine
commit: it performs an engine rollback instead and fails by raising the
error stating the transaction was rolled back despite the commit request. -/
theorem commit_sticky_forces_rollback (s : TransState)
    (hc : s.transaction_cnt = 1) (hr : s.nested_rollback = true) :
    (commitNested s).2.1 = [EngineOp.rollback] ∧
    EngineOp.commit ∉ (commitNested s).2.1 ∧
    (commitNested s).2.2 = some commitDespiteRollbackMsg := by
  simp [commitNested, rollbackNested, hc, hr]

/-- Witness for C1 at the concrete state `(1, true)`. -/
theorem commit_sticky_forces_rollback_witness :
    (commitNested { transaction_cnt := 1, nested_rollback := true }).2.1 = [EngineOp.rollback] ∧
    EngineOp.commit ∉ (commitNested { transaction_cnt := 1, nested_rollback := true }).2.1 ∧
    (commitNested { transaction_cnt := 1, nested_rollback := true }).2.2
      = some commitDespiteRollbackMsg :=
  commit_sticky_forces_rollback { transaction_cnt := 1, nested_rollback := true } rfl rfl

/-- C2 (code bug): the nested-mode call sequence `start; start; rollback;
commit`, run from the initial state, leaves `transaction_cnt = -1`: the
sticky-rollback commit path decrements the counter twice (once inside the
`self.rollback()` call and once more before raising), so the specified
invariant `nestingDepth ≥ 0` is violated by the code. -/
theorem nested_depth_invariant_violated :
    (runNested TransState.init [TOp.start, TOp.start, TOp.rollback, TOp.commit]).1.transaction_cnt
        = -1 ∧
    ¬ (0 ≤ (runNested TransState.init
        [TOp.start, TOp.start, TOp.rollback, TOp.commit]).1.transaction_cnt) := by
  refine ⟨rfl, by decide⟩

/-- C5 counterexample: the nested-mode sequence `start; start; commit;
rollback` raises no error at all — the sticky-rollback error is not raised,
because the outermost call of that sequence is a rollback, and only a commit
raises it. -/
theorem start_start_commit_rollback_no_error :
    (runNested TransState.init [TOp.start, TOp.start, TOp.commit, TOp.rollback]).2.2 = [] := rfl

/-- C5 (amended): the nested-mode sequence `start; start; commit; rollback`
forces an engine rollback (the engine trace is begin-then-rollback, with no
engine commit), raises no error, and persists zero rows from the span. -/
theorem start_start_commit_rollback_rolls_back :
    (runNested TransState.init [TOp.start, TOp.start, TOp.commit, TOp.rollback]).2.1
        = [EngineOp.begin, EngineOp.rollback] ∧
    EngineOp.commit ∉
      (runNested TransState.init [TOp.start, TOp.start, TOp.commit, TOp.rollback]).2.1 ∧
    (runNested TransState.init [TOp.start, TOp.start, TOp.commit, TOp.rollback]).2.2 = [] ∧
    (replay (runNested TransState.init
        [TOp.start, TOp.start, TOp.commit, TOp.rollback]).2.1).persisted = 0 := by
  refine ⟨rfl, by decide, rfl, rfl⟩

/-! ### Timeout-mode start claims -/

/-- A retry loop whose every attempt reports the busy error runs out of fuel
with the busy message buffered. -/
theorem startLoop_busy (resp : Nat → StartResp)
    (hb : ∀ k, resp k = StartResp.err busyMsg) :
    ∀ fuel k last,
      startLoop resp fuel k last
        = (false, if fuel = 0 then last else some busyMsg, k + fuel) := by
  intro fuel
  induction fuel with
  | zero => intro k last; simp [startLoop]
  | succ n ih =>
    intro k last
    rw [startLoop, hb k]
    simp only [if_pos rfl]
    rw [ih (k + 1) (some busyMsg)]
    have h2 : k + 1 + n = k + (n + 1) := by omega
    simp only [ite_self, h2]
    simp

/-- C8: timeout-mode `start_transaction`.  The timeout defaults to the
3-second `transaction_timeout`; while every engine attempt reports that a
transaction is already active, the manager retries (one attempt per 100 ms
tick, attempt `k` running exactly when `k / 10 < timeout`) until the timeout
elapses and then fails with the error naming the elapsed bound; if the first
attempt reports any other engine error, the call aborts after that single
attempt, with no further retries, failing with that engine error. -/
theorem start_timeout_retry_policy (t : ℚ) (resp : Nat → StartResp) (m : String)
    (ht : 0 < t) :
    (∀ r2 : Nat → StartResp,
      sqliteStartTransaction none r2 = sqliteStartTransaction (some transaction_timeout) r2) ∧
    ((∀ k, resp k = StartResp.err busyMsg) →
      sqliteStartTransaction (some t) resp
        = StartOutcome.failed (startFailMsg t busyMsg) (maxAttempts t)) ∧
    (∀ k : Nat, (k : ℚ) / 10 < t ↔ k < maxAttempts t) ∧
    (resp 0 = StartResp.err m → m ≠ busyMsg →
      sqliteStartTransaction (some t) resp = StartOutcome.failed (startFailMsg t m) 1) := by
  have hpos : maxAttempts t ≠ 0 := by
    have h1 : 0 < maxAttempts t := by
      have h2 : (0 : ℚ) < 10 * t := by linarith
      exact Nat.ceil_pos.mpr h2
    omega
  refine ⟨fun r2 => rfl, ?_, ?_, ?_⟩
  · intro hb
    simp only [sqliteStartTransaction, Option.getD_some]
    rw [startLoop_busy resp hb (maxAttempts t) 0 none]
    simp [hpos]
  · intro k
    constructor
    · intro h
      have hlt : (k : ℚ) < 10 * t := by
        rw [div_lt_iff₀ (by norm_num : (0 : ℚ) < 10)] at h
        linarith
      exact Nat.lt_ceil.mpr hlt
    · intro h
      have hlt : (k : ℚ) < 10 * t := Nat.lt_ceil.mp h
      rw [div_lt_iff₀ (by norm_num : (0 : ℚ) < 10)]
      linarith
  · intro h0 hm
    obtain ⟨n, hn⟩ : ∃ n, maxAttempts t = n + 1 := by
      cases hq : maxAttempts t with
      | zero => exact absurd hq hpos
      | succ n => exact ⟨n, rfl⟩
    simp only [sqliteStartTransaction, Option.getD_some]
    rw [hn]
    simp only [startLoop]
    rw [h0]
    simp [hm]

/-- Witness for C8 at timeout 1 s with an engine whose first report is a
non-busy error. -/
theorem start_timeout_retry_policy_witness :
    (∀ r2 : Nat → StartResp,
      sqliteStartTransaction none r2 = sqliteStartTransaction (some transaction_timeout) r2) ∧
    ((∀ k, (fun _ : Nat => StartResp.err "disk error") k = StartResp.err busyMsg) →
      sqliteStartTransaction (some 1) (fun _ : Nat => StartResp.err "disk error")
        = StartOutcome.failed (startFailMsg 1 busyMsg) (maxAttempts 1)) ∧
    (∀ k : Nat, (k : ℚ) / 10 < 1 ↔ k < maxAttempts 1) ∧
    ((fun _ : Nat => StartResp.err "disk error") 0 = StartResp.err "disk error" →
      "disk error" ≠ busyMsg →
      sqliteStartTransaction (some 1) (fun _ : Nat => StartResp.err "disk error")
        = StartOutcome.failed (startFailMsg 1 "disk error") 1) :=
  start_timeout_retry_policy 1 (fun _ : Nat => StartResp.err "disk error") "disk error"
    (by norm_num)

/-! ### Condition algebra claims -/

/-- Strong induction principle for `Cond` (children of a combinator are
structurally smaller). -/
theorem cond_ind (P : Cond → Prop)
    (hbase : P Cond.base)
    (hnull : ∀ neg col, P (Cond.nullChk neg col))
    (hcmp : ∀ op col vs, P (Cond.cmp op col vs))
    (hcomb : ∀ op cs, (∀ c ∈ cs, P c) → P (Cond.comb op cs)) :
    ∀ c, P c := by
  have H : ∀ n, ∀ c : Cond, sizeOf c < n → P c := by
    intro n
    induction n with
    | zero => intro c hc; omega
    | succ n ih =>
      intro c hc
      match c with
      | Cond.base => exact hbase
      | Cond.nullChk neg col => exact hnull neg col
      | Cond.cmp op col vs => exact hcmp op col vs
      | Cond.comb op cs =>
        refine hcomb op cs fun c' hc' => ih c' ?_
        have h1 : sizeOf c' < sizeOf cs := List.sizeOf_lt_of_mem hc'
        simp only [Cond.comb.sizeOf_spec] at hc
        omega
  exact fun c => H (sizeOf c + 1) c (by omega)

/-- The empty token list has no placeholder. -/
theorem phCount_nil : phCount [] = 0 := rfl

/-- A literal token contributes no placeholder. -/
theorem phCount_cons_lit (s : String) (ts : List STok) :
    phCount (STok.lit s :: ts) = phCount ts := by
  simp [phCount, List.countP_cons]

/-- The placeholder token contributes one placeholder. -/
theorem phCount_cons_ph (ts : List STok) :
    phCount (STok.ph :: ts) = phCount ts + 1 := by
  simp [phCount, List.countP_cons]

/-- Placeholder counting distributes over append. -/
theorem phCount_append (a b : List STok) :
    phCount (a ++ b) = phCount a + phCount b := by
  simp [phCount, List.countP_append]

/-- The combinator join emits the children's placeholders and nothing else. -/
theorem phCount_serializeJoin (op : CmbOp) (q : Option (String → String)) :
    ∀ cs : List Cond,
      (∀ c ∈ cs, phCount (serializeToks c true q) = condPh c) →
      phCount (serializeJoin op cs q) = condPhList cs := by
  intro cs
  induction cs with
  | nil => intro _; simp [serializeJoin, condPhList, phCount]
  | cons c rest ih =>
    intro h
    cases rest with
    | nil =>
      have h1 := h c (by simp)
      simp [serializeJoin, condPhList, h1]
    | cons c2 rest2 =>
      have h1 := h c (by simp)
      have h2 : ∀ c' ∈ c2 :: rest2, phCount (serializeToks c' true q) = condPh c' :=
        fun c' hc' => h c' (List.mem_cons_of_mem c hc')
      rw [serializeJoin, phCount_append, phCount_append, h1, ih h2,
        phCount_cons_lit]
      simp [condPhList, phCount]

/-- The number of placeholder tokens `serialize` emits equals the structural
placeholder count, for every nesting flag and quoting function. -/
theorem phCount_serializeToks (c : Cond) :
    ∀ (nested : Bool) (q : Option (String → String)),
      phCount (serializeToks c nested q) = condPh c := by
  induction c using cond_ind with
  | hbase => intro nested q; simp [serializeToks, condPh, phCount]
  | hnull neg col =>
    intro nested q
    cases nested <;>
      simp [serializeToks, condPh, phCount_append, phCount_cons_lit, phCount]
  | hcmp op col vs =>
    intro nested q
    cases nested <;>
      simp [serializeToks, condPh, phCount_append, phCount_cons_lit,
        phCount_cons_ph, phCount]
  | hcomb op cs ih =>
    intro nested q
    rw [serializeToks]
    by_cases hc : (!nested && cs.isEmpty) = true
    · rw [if_pos hc]
      have hcs : cs = [] := by
        rcases Bool.and_eq_true_iff.mp hc with ⟨_, h2⟩
        exact List.isEmpty_iff.mp h2
      simp [hcs, condPh, condPhList, phCount]
    · rw [if_neg hc]
      have hj := phCount_serializeJoin op q cs (fun c' hc' => ih c' hc' true q)
      cases nested <;>
        simp [phCount_append, phCount_cons_lit, phCount_nil, hj, condPh]

/-- `condParamsList` pairs each child with its parameter rows. -/
theorem condParamsList_forall2 :
    ∀ (cs : List Cond) (pss : List (List (List Val))),
      condParamsList cs = Except.ok pss →
      List.Forall₂ (fun c p => condParams c = Except.ok p) cs pss := by
  intro cs
  induction cs with
  | nil =>
    intro pss h
    rw [condParamsList] at h
    cases h
    exact List.Forall₂.nil
  | cons c rest ih =>
    intro pss h
    rw [condParamsList] at h
    cases hc : condParams c with
    | error e => rw [hc] at h; cases h
    | ok p =>
      rw [hc] at h
      cases hr : condParamsList rest with
      | error e => rw [hr] at h; cases h
      | ok ps =>
        rw [hr] at h
        cases h
        exact List.Forall₂.cons hc (ih ps hr)

/-- A row picked by the repeat rule is one of the child's own rows. -/
theorem pickRow_mem (ps : List (List Val)) (i : Nat) (r : List Val)
    (h : pickRow ps i = Except.ok r) : r ∈ ps := by
  rw [pickRow] at h
  split at h
  next hlt =>
    cases h
    exact List.get_mem ps i hlt
  next hge =>
    cases hl : ps.getLast? with
    | none => rw [hl] at h; cases h
    | some x =>
      rw [hl] at h
      have hx : r = x := by
        have h' : Except.ok (ε := PErr) x = Except.ok r := h
        cases h'
        rfl
      subst hx
      have hmem : r ∈ ps.getLast? := Option.mem_def.mpr hl
      obtain ⟨hne, heq⟩ := List.mem_getLast?_eq_getLast hmem
      rw [heq]
      exact List.getLast_mem hne

/-- A row built by the combinator loop has the children's total placeholder
count as its width, provided each child's rows do. -/
theorem buildRow_length :
    ∀ (cs : List Cond) (pss : List (List (List Val))),
      List.Forall₂ (fun c p => condParams c = Except.ok p) cs pss →
      (∀ c ∈ cs, ∀ ps, condParams c = Except.ok ps → ∀ p ∈ ps, p.length = condPh c) →
      ∀ (i : Nat) (r : List Val), buildRow pss i = Except.ok r →
        r.length = condPhList cs := by
  intro cs pss hf
  induction hf with
  | nil =>
    intro _ i r h
    rw [buildRow] at h
    cases h
    simp [condPhList]
  | @cons c p cs' pss' hcp _ ih =>
    intro hall i r h
    rw [buildRow] at h
    cases hp : pickRow p i with
    | error e => rw [hp] at h; cases h
    | ok r1 =>
      rw [hp] at h
      cases hrest : buildRow pss' i with
      | error e => rw [hrest] at h; cases h
      | ok rs =>
        rw [hrest] at h
        cases h
        have h1 : r1.length = condPh c :=
          hall c (by simp) p hcp r1 (pickRow_mem p i r1 hp)
        have h2 : rs.length = condPhList cs' :=
          ih (fun c' hc' => hall c' (List.mem_cons_of_mem c hc')) i rs hrest
        simp [condPhList, h1, h2]

/-- Every row produced by the combinator's outer loop was built by
`buildRow` at some index. -/
theorem buildRows_mem (pss : List (List (List Val))) :
    ∀ (is : List Nat) (rows : List (List Val)),
      buildRows pss is = Except.ok rows →
      ∀ r ∈ rows, ∃ i, buildRow pss i = Except.ok r := by
  intro is
  induction is with
  | nil =>
    intro rows h
    rw [buildRows] at h
    cases h
    intro r hr
    cases hr
  | cons i is' ih =>
    intro rows h
    rw [buildRows] at h
    cases hi : buildRow pss i with
    | error e => rw [hi] at h; cases h
    | ok r0 =>
      rw [hi] at h
      cases hrest : buildRows pss is' with
      | error e => rw [hrest] at h; cases h
      | ok rs =>
        rw [hrest] at h
        cases h
        intro r hr
        cases List.mem_cons.mp hr with
        | inl heq => exact ⟨i, heq ▸ hi⟩
        | inr hmem => exact ih rs hrest r hmem

/-- Every parameter row of a condition has the condition's structural
placeholder count as its width. -/
theorem condParams_row_width :
    ∀ (c : Cond) (ps : List (List Val)), condParams c = Except.ok ps →
      ∀ p ∈ ps, p.length = condPh c := by
  refine cond_ind
    (fun c => ∀ ps, condParams c = Except.ok ps → ∀ p ∈ ps, p.length = condPh c)
    ?_ ?_ ?_ ?_
  · intro ps h p hp
    rw [condParams] at h
    cases h
    cases hp
  · intro neg col ps h p hp
    rw [condParams] at h
    cases h
    rcases List.mem_singleton.mp hp with rfl
    simp [condPh]
  · intro op col vs ps h p hp
    rw [condParams] at h
    cases h
    obtain ⟨v, _, rfl⟩ := List.mem_map.mp hp
    simp [condPh]
  · intro op cs ih ps h
    rw [condParams] at h
    cases hl : condParamsList cs with
    | error e => rw [hl] at h; cases h
    | ok pss =>
      rw [hl] at h
      have hf := condParamsList_forall2 cs pss hl
      intro p hp
      unfold combineParams at h
      obtain ⟨i, hi⟩ := buildRows_mem pss (List.range (maxSets pss)) ps h p hp
      have := buildRow_length cs pss hf ih i p hi
      simpa [condPh] using this

/-- C3: for every predicate tree whose `params()` returns (propagating the
partiality of the combinator padding), every parameter row's width equals
the number of placeholder tokens `serialize` emits, for any nesting flag and
quoting function; in particular a null check contributes zero placeholders
and exactly one empty parameter row, and a comparison contributes exactly
one placeholder. -/
theorem placeholder_count_matches_param_width (c : Cond) (nested : Bool)
    (q : Option (String → String)) (ps : List (List Val))
    (h : condParams c = Except.ok ps) :
    (∀ p ∈ ps, p.length = phCount (serializeToks c nested q)) ∧
    (∀ (neg : Bool) (col : String),
      condParams (Cond.nullChk neg col) = Except.ok [[]] ∧
      phCount (serializeToks (Cond.nullChk neg col) nested q) = 0) ∧
    (∀ (op : CmpOp) (col : String) (vs : List Val),
      phCount (serializeToks (Cond.cmp op col vs) nested q) = 1) := by
  refine ⟨?_, ?_, ?_⟩
  · intro p hp
    rw [phCount_serializeToks c nested q]
    exact condParams_row_width c ps h p hp
  · intro neg col
    refine ⟨rfl, ?_⟩
    rw [phCount_serializeToks]
    rfl
  · intro op col vs
    rw [phCount_serializeToks]
    rfl

/-- Witness for C3 on the tree `And(Eq("a", 1), Null("b"))`. -/
theorem placeholder_count_matches_param_width_witness :
    (∀ p ∈ [[Val.int 1]],
      p.length = phCount (serializeToks
        (Cond.comb CmbOp.and [condEq "a" (Val.int 1), Cond.nullChk false "b"]) false none)) ∧
    (∀ (neg : Bool) (col : String),
      condParams (Cond.nullChk neg col) = Except.ok [[]] ∧
      phCount (serializeToks (Cond.nullChk neg col) false none) = 0) ∧
    (∀ (op : CmpOp) (col : String) (vs : List Val),
      phCount (serializeToks (Cond.cmp op col vs) false none) = 1) :=
  placeholder_count_matches_param_width
    (Cond.comb CmbOp.and [condEq "a" (Val.int 1), Cond.nullChk false "b"])
    false none [[Val.int 1]] rfl

/-- C9: the combinator padding is partial — a child with zero parameter rows
(a bare base `Condition`, or a comparison built from the empty value list)
drives `And.params` into the guarded last-row access, whose error branch
(the Python `IndexError` on `params()[-1]`) is reachable. -/
theorem comb_params_index_error_reachable :
    condParams Cond.base = Except.ok [] ∧
    condParams (Cond.cmp CmpOp.eq "a" []) = Except.ok [] ∧
    condParams (Cond.comb CmbOp.and [Cond.base]) = Except.error PErr.indexError ∧
    condParams (Cond.comb CmbOp.and [Cond.cmp CmpOp.eq "a" [], condEq "b" (Val.str "x")])
      = Except.error PErr.indexError :=
  ⟨rfl, rfl, rfl, rfl⟩

/-- Folding the `N_sets` update is folding `max`. -/
theorem foldl_sets_eq_max (l : List (List (List Val))) :
    ∀ a : Nat, l.foldl (fun a ps => if ps.length > a then ps.length else a) a
      = (l.map List.length).foldl max a := by
  induction l with
  | nil => intro a; rfl
  | cons x l ih =>
    intro a
    have h : (if x.length > a then x.length else a) = max a x.length := by
      by_cases hx : x.length > a
      · simp [hx]; omega
      · simp [hx]; omega
    simp only [List.foldl_cons, List.map_cons, h]
    exact ih (max a x.length)

/-- Folding `max` from a joined start value. -/
theorem foldl_max_split (l : List Nat) :
    ∀ a b : Nat, l.foldl max (max a b) = max a (l.foldl max b) := by
  induction l with
  | nil => intro a b; rfl
  | cons x l ih =>
    intro a b
    simp only [List.foldl_cons]
    rw [max_assoc, ih]

/-- Every element bounds the `max` fold from below. -/
theorem le_foldl_max (l : List Nat) :
    ∀ (x : Nat), x ∈ l → ∀ a, x ≤ l.foldl max a := by
  induction l with
  | nil => intro x hx; cases hx
  | cons y l ih =>
    intro x hx a
    cases List.mem_cons.mp hx with
    | inl heq =>
      subst heq
      calc x ≤ max a x := le_max_right a x
        _ ≤ l.foldl max (max a x) := by
          clear ih hx
          induction l generalizing a x with
          | nil => exact le_rfl
          | cons z l ihz =>
            simp only [List.foldl_cons]
            calc max a x ≤ max (max a x) z := le_max_left _ _
              _ ≤ l.foldl max (max (max a x) z) := ihz _ _
    | inr hmem => exact ih x hmem (max a y)

/-- With every child nonempty, `N_sets` equals the specification's
maximum-of-row-counts. -/
theorem maxSets_eq_spec (pss : List (List (List Val)))
    (hne : pss ≠ []) (hnz : ∀ ps ∈ pss, ps ≠ []) :
    maxSets pss = (pss.map List.length).foldl max 0 := by
  rw [maxSets, foldl_sets_eq_max]
  have h1 : (1 : Nat) = max 1 0 := rfl
  rw [h1, foldl_max_split]
  obtain ⟨ps0, hps0⟩ := List.exists_mem_of_ne_nil pss hne
  have hlen : 1 ≤ ps0.length := by
    have := hnz ps0 hps0
    cases hq : ps0 with
    | nil => exact absurd hq this
    | cons a l => simp [hq]
  have hmem : ps0.length ∈ pss.map List.length := List.mem_map_of_mem List.length hps0
  have hle : ps0.length ≤ (pss.map List.length).foldl max 0 :=
    le_foldl_max (pss.map List.length) ps0.length hmem 0
  omega

/-- With every child nonempty, `buildRow` never fails and returns the
specification's concatenation of picked rows. -/
theorem buildRow_total (i : Nat) :
    ∀ (pss : List (List (List Val))), (∀ ps ∈ pss, ps ≠ []) →
      buildRow pss i = Except.ok
        ((pss.map fun ps =>
          if h : i < ps.length then ps.get ⟨i, h⟩ else ps.getLastD []).flatten) := by
  intro pss
  induction pss with
  | nil => intro _; rfl
  | cons ps rest ih =>
    intro hnz
    have hps : ps ≠ [] := hnz ps (by simp)
    have hrest : ∀ p ∈ rest, p ≠ [] := fun p hp => hnz p (List.mem_cons_of_mem ps hp)
    rw [buildRow, ih hrest]
    rw [pickRow]
    by_cases hi : i < ps.length
    · simp [hi]
    · rw [dif_neg hi]
      cases hl : ps.getLast? with
      | none => exact absurd (List.getLast?_eq_none_iff.mp hl) hps
      | some x => simp [hi, hl]

/-- `buildRows` over any index list is the map of `buildRow` when every
child is nonempty. -/
theorem buildRows_total (pss : List (List (List Val))) (hnz : ∀ ps ∈ pss, ps ≠ []) :
    ∀ is : List Nat,
      buildRows pss is = Except.ok
        (is.map fun i =>
          (pss.map fun ps =>
            if h : i < ps.length then ps.get ⟨i, h⟩ else ps.getLastD []).flatten) := by
  intro is
  induction is with
  | nil => rfl
  | cons i is' ih =>
    rw [buildRows, buildRow_total i pss hnz, ih]
    rfl

/-- C4: for every combinator with at least one child whose children all
yield at least one parameter row, `params()` returns exactly the rows of the
specification's row-repeat cross rule; and on the concrete example
`And(Eq("a", [1, 2, 3]), Eq("b", "x"))` the rows are
`[[1, "x"], [2, "x"], [3, "x"]]`. -/
theorem comb_params_row_repeat_cross (op : CmbOp) (cs : List Cond)
    (pss : List (List (List Val)))
    (hne : cs ≠ [])
    (hls : condParamsList cs = Except.ok pss)
    (hnz : ∀ ps ∈ pss, ps ≠ []) :
    condParams (Cond.comb op cs) = Except.ok (crossRuleSpec pss) ∧
    condParams (Cond.comb CmbOp.and
        [condEqList "a" [Val.int 1, Val.int 2, Val.int 3], condEq "b" (Val.str "x")])
      = Except.ok [[Val.int 1, Val.str "x"], [Val.int 2, Val.str "x"],
          [Val.int 3, Val.str "x"]] := by
  constructor
  · have hpne : pss ≠ [] := by
      intro hq
      have hlen := List.Forall₂.length_eq (condParamsList_forall2 cs pss hls)
      rw [hq] at hlen
      simp at hlen
      exact hne hlen
    have hstep : condParams (Cond.comb op cs) = combineParams pss := by
      rw [condParams, hls]
    rw [hstep]
    unfold combineParams
    rw [buildRows_total pss hnz, maxSets_eq_spec pss hpne hnz]
    rfl
  · rfl

/-- Witness for C4 on `And(Eq("a", [1, 2, 3]), Eq("b", "x"))`. -/
theorem comb_params_row_repeat_cross_witness :
    condParams (Cond.comb CmbOp.and
        [condEqList "a" [Val.int 1, Val.int 2, Val.int 3], condEq "b" (Val.str "x")])
      = Except.ok (crossRuleSpec
          [[[Val.int 1], [Val.int 2], [Val.int 3]], [[Val.str "x"]]]) ∧
    condParams (Cond.comb CmbOp.and
        [condEqList "a" [Val.int 1, Val.int 2, Val.int 3], condEq "b" (Val.str "x")])
      = Except.ok [[Val.int 1, Val.str "x"], [Val.int 2, Val.str "x"],
          [Val.int 3, Val.str "x"]] :=
  comb_params_row_repeat_cross CmbOp.and
    [condEqList "a" [Val.int 1, Val.int 2, Val.int 3], condEq "b" (Val.str "x")]
    [[[Val.int 1], [Val.int 2], [Val.int 3]], [[Val.str "x"]]]
    (by simp) rfl (by decide)

/-! ### Table and validation claims -/

/-- Appending a differently-keyed pair does not make a lookup succeed. -/
theorem lookup_append_none (l : Row) (c k : String) (v : Val)
    (h1 : List.lookup c l = none) (h2 : c ≠ k) :
    List.lookup c (l ++ [(k, v)]) = none := by
  induction l with
  | nil =>
    have hb : (c == k) = false := by simp [h2]
    simp [List.lookup, hb]
  | cons p rest ih =>
    obtain ⟨k', v'⟩ := p
    by_cases hck : c = k'
    · subst hck
      simp [List.lookup] at h1
    · have hb : (c == k') = false := by simp [hck]
      rw [List.cons_append]
      simp only [List.lookup, hb] at h1 ⊢
      exact ih h1

/-- The errors accumulated so far are a prefix of the errors the
`_split_col_value` loop ends with. -/
theorem splitGo_errors_prefix (ext : ExtVal) (schema : Schema) :
    ∀ (rows : List Row) validated cols values errors out,
      splitGo ext schema rows validated cols values errors = Except.ok out →
      errors <+: out.2.2.2 := by
  intro rows
  induction rows with
  | nil =>
    intro validated cols values errors out h
    rw [splitGo] at h
    cases h
    exact List.prefix_refl _
  | cons d rest ih =>
    intro validated cols values errors out h
    simp only [splitGo] at h
    have hpre : errors <+: errors ++ [(validateData ext schema d).2] :=
      List.prefix_append _ _
    split at h
    · exact hpre.trans (ih _ _ _ _ _ h)
    · split at h
      · exact hpre.trans (ih _ _ _ _ _ h)
      · split at h
        · exact hpre.trans (ih _ _ _ _ _ h)
        · cases h

/-- When the `_split_col_value` loop succeeds with every error dict empty,
it appended exactly one value row per input row. -/
theorem splitGo_values_length (ext : ExtVal) (schema : Schema) :
    ∀ (rows : List Row) validated cols values errors out,
      splitGo ext schema rows validated cols values errors = Except.ok out →
      (∀ e ∈ out.2.2.2, e = []) →
      out.2.2.1.length = values.length + rows.length := by
  intro rows
  induction rows with
  | nil =>
    intro validated cols values errors out h hall
    rw [splitGo] at h
    cases h
    simp
  | cons d rest ih =>
    intro validated cols values errors out h hall
    simp only [splitGo] at h
    split at h
    next hne =>
      exfalso
      have hpre := splitGo_errors_prefix ext schema rest _ _ _ _ _ h
      have hmem : (validateData ext schema d).2 ∈ out.2.2.2 :=
        hpre.subset (by simp)
      exact hne (hall _ hmem)
    next =>
      split at h
      · have := ih _ _ _ _ _ h hall
        simp at this ⊢
        omega
      · split at h
        · have := ih _ _ _ _ _ h hall
          simp at this ⊢
          omega
        · cases h

/-- `_split_col_value` returns one value row per input row. -/
theorem splitColValue_length (ext : ExtVal) (schema : Schema) (data : List Row)
    (validated : List Row) (cols : List String) (values : List (List Val))
    (h : splitColValue ext schema data = Except.ok (validated, cols, values)) :
    values.length = data.length := by
  unfold splitColValue at h
  cases hg : splitGo ext schema data [] [] [] [] with
  | error e => rw [hg] at h; cases h
  | ok out =>
    rw [hg] at h
    obtain ⟨v', c', vals', errs'⟩ := out
    have h' : (if errs'.all (fun e => e = []) then
        (if c' = [] then Except.error TableErr.noValidColumns
         else Except.ok (v', c', vals'))
        else Except.error (TableErr.validation errs'))
        = Except.ok (validated, cols, values) := h
    cases hb : errs'.all (fun e => e = []) with
    | false =>
      rw [if_neg (by simp [hb])] at h'
      cases h'
    | true =>
      rw [if_pos hb] at h'
      by_cases hc : c' = []
      · rw [if_pos hc] at h'
        cases h'
      · rw [if_neg hc] at h'
        have hall : ∀ e ∈ errs', e = [] := by simpa using hb
        have hlen := splitGo_values_length ext schema data [] [] [] [] _ hg hall
        cases h'
        simpa using hlen

/-- C6: for a create call whose rows all pass validation (the column/value
split succeeds) and whose post-insert validation finds no errors, the call
returns the engine-assigned surrogate id of the new row when exactly one row
was submitted, and returns nothing when two or more rows were submitted. -/
theorem create_returns_id_iff_single_row (ext : ExtVal) (schema : Schema)
    (countAfter : String → Val → Nat) (nextId : Int) (data : List Row)
    (validated : List Row) (cols : List String) (values : List (List Val))
    (hs : splitColValue ext schema data = Except.ok (validated, cols, values))
    (hpost : (validate2 schema countAfter validated).all (fun e => e = []) = true) :
    (data.length = 1 →
      create ext schema countAfter nextId data
        = { result := Except.ok (some nextId), engineTouched := true }) ∧
    (2 ≤ data.length →
      create ext schema countAfter nextId data
        = { result := Except.ok none, engineTouched := true }) := by
  have hlen := splitColValue_length ext schema data validated cols values hs
  have hcreate : create ext schema countAfter nextId data
      = { result := Except.ok (sqliteExecuteId nextId values), engineTouched := true } := by
    have h1 : create ext schema countAfter nextId data
        = (if (validate2 schema countAfter validated).all (fun e => e = []) then
            ({ result := Except.ok (sqliteExecuteId nextId values), engineTouched := true } : CreateResult)
           else ({ result := Except.error (TableErr.validation (validate2 schema countAfter validated)), engineTouched := true } : CreateResult)) := by
      unfold create
      rw [hs]
    rw [h1, if_pos hpost]
  constructor
  · intro h1
    rw [hcreate]
    have : sqliteExecuteId nextId values = some nextId := by
      unfold sqliteExecuteId
      rw [if_neg (by omega)]
    rw [this]
  · intro h2
    rw [hcreate]
    have : sqliteExecuteId nextId values = none := by
      unfold sqliteExecuteId
      rw [if_pos (by omega)]
    rw [this]

/-- Witness for C6: a one-row create returns the new id 7; a two-row create
returns nothing. -/
theorem create_returns_id_iff_single_row_witness :
    ([[("a", Val.str "x")]].length = 1 →
      create extNone [("a", [])] (fun _ _ => 0) 7 [[("a", Val.str "x")]]
        = { result := Except.ok (some 7), engineTouched := true }) ∧
    (2 ≤ ([[("a", Val.str "x")], [("a", Val.str "y")]] : List Row).length →
      create extNone [("a", [])] (fun _ _ => 0) 7 [[("a", Val.str "x")], [("a", Val.str "y")]]
        = { result := Except.ok none, engineTouched := true }) :=
  ⟨(create_returns_id_iff_single_row extNone [("a", [])] (fun _ _ => 0) 7
      [[("a", Val.str "x")]] [[("a", Val.str "x")]] ["a"] [[Val.str "x"]]
      rfl rfl).1,
   (create_returns_id_iff_single_row extNone [("a", [])] (fun _ _ => 0) 7
      [[("a", Val.str "x")], [("a", Val.str "y")]]
      [[("a", Val.str "x")], [("a", Val.str "y")]] ["a"] [[Val.str "x"], [Val.str "y"]]
      rfl rfl).2⟩

/-- C7 counterexample: two rows that validate (without errors) to different
column sets — the second row has the extra column "b" — are not rejected:
the create call succeeds, returns no id, and the INSERT reaches the engine.
The column-set check only tests that the first row's columns are present in
each later row. -/
theorem superset_columns_not_rejected :
    (validateData extNone [("a", []), ("b", [])] [("a", Val.str "1")]).2 = [] ∧
    (validateData extNone [("a", []), ("b", [])]
      [("a", Val.str "1"), ("b", Val.str "2")]).2 = [] ∧
    rowKeys (validateData extNone [("a", []), ("b", [])] [("a", Val.str "1")]).1
      ≠ rowKeys (validateData extNone [("a", []), ("b", [])]
          [("a", Val.str "1"), ("b", Val.str "2")]).1 ∧
    create extNone [("a", []), ("b", [])] (fun _ _ => 0) 1
        [[("a", Val.str "1")], [("a", Val.str "1"), ("b", Val.str "2")]]
      = { result := Except.ok none, engineTouched := true } := by
  refine ⟨rfl, rfl, by decide, rfl⟩

/-- Once the reference columns are fixed and nonempty, a later error-free
row missing one of them makes the `_split_col_value` loop raise the
same-columns error. -/
theorem splitGo_missing_column (ext : ExtVal) (schema : Schema) :
    ∀ (rest : List Row) validated (cols : List String) values errors,
      cols ≠ [] →
      (∀ r ∈ rest, (validateData ext schema r).2 = []) →
      (∃ r ∈ rest, ∃ c ∈ cols, List.lookup c (validateData ext schema r).1 = none) →
      splitGo ext schema rest validated cols values errors
        = Except.error TableErr.sameColumns := by
  intro rest
  induction rest with
  | nil =>
    intro validated cols values errors _ _ hmiss
    obtain ⟨r, hr, _⟩ := hmiss
    cases hr
  | cons d rest' ih =>
    intro validated cols values errors hcols hall hmiss
    have hd : (validateData ext schema d).2 = [] := hall d (by simp)
    simp only [splitGo] at *
    rw [if_neg (by simp [hd]), if_neg hcols]
    by_cases hok : (cols.all fun c => (List.lookup c (validateData ext schema d).1).isSome)
      = true
    · rw [if_pos hok]
      refine ih _ cols _ _ hcols (fun r hr => hall r (List.mem_cons_of_mem d hr)) ?_
      obtain ⟨r, hr, c, hc, hnone⟩ := hmiss
      cases List.mem_cons.mp hr with
      | inl heq =>
        exfalso
        subst heq
        have := List.all_eq_true.mp hok c hc
        rw [hnone] at this
        simp at this
      | inr hmem => exact ⟨r, hmem, c, hc, hnone⟩
    · rw [if_neg hok]

/-- C7 (amended): among the rows that validate without errors, the first one
fixes the reference column set; any later error-free row missing one of
those columns makes the call fail with the generic same-columns error before
any SQL is issued; a later row whose columns are a superset of the reference
set is not rejected (the extra columns are silently ignored), so only a
missing reference column is rejected, not every differing column set. -/
theorem missing_column_raises_same_columns (ext : ExtVal) (schema : Schema)
    (countAfter : String → Val → Nat) (nextId : Int) (r0 : Row) (rest : List Row)
    (h0 : (validateData ext schema r0).2 = [])
    (hk : rowKeys (validateData ext schema r0).1 ≠ [])
    (hall : ∀ r ∈ rest, (validateData ext schema r).2 = [])
    (hmiss : ∃ r ∈ rest, ∃ c ∈ rowKeys (validateData ext schema r0).1,
      List.lookup c (validateData ext schema r).1 = none) :
    splitColValue ext schema (r0 :: rest) = Except.error TableErr.sameColumns ∧
    create ext schema countAfter nextId (r0 :: rest)
      = { result := Except.error TableErr.sameColumns, engineTouched := false } := by
  have hsplit : splitColValue ext schema (r0 :: rest)
      = Except.error TableErr.sameColumns := by
    unfold splitColValue
    have hgo : splitGo ext schema (r0 :: rest) [] [] [] []
        = Except.error TableErr.sameColumns := by
      simp only [splitGo]
      rw [if_neg (by simp [h0])]
      rw [if_pos trivial]
      exact splitGo_missing_column ext schema rest _ _ _ _ hk hall hmiss
    rw [hgo]
  refine ⟨hsplit, ?_⟩
  unfold create
  rw [hsplit]

/-- Witness for C7's amended claim: the second row lacks the first row's
column "b" and the call fails with the same-columns error, engine untouched. -/
theorem missing_column_raises_same_columns_witness :
    splitColValue extNone [("a", []), ("b", [])]
        [[("a", Val.str "1"), ("b", Val.str "2")], [("a", Val.str "3")]]
      = Except.error TableErr.sameColumns ∧
    create extNone [("a", []), ("b", [])] (fun _ _ => 0) 1
        [[("a", Val.str "1"), ("b", Val.str "2")], [("a", Val.str "3")]]
      = { result := Except.error TableErr.sameColumns, engineTouched := false } :=
  missing_column_raises_same_columns extNone [("a", []), ("b", [])] (fun _ _ => 0) 1
    [("a", Val.str "1"), ("b", Val.str "2")] [[("a", Val.str "3")]]
    rfl (by decide) (by intro r hr; cases List.mem_singleton.mp hr; rfl)
    ⟨[("a", Val.str "3")], by simp, "b", by decide, rfl⟩

/-- A non-`None` input always leaves `validate` with a string value: the
code rebinds `value = str(value)` before the format loop and every format
function returns a string. -/
theorem validate_str_of_ne_null (ext : ExtVal) (v : Val) (fmt : List Fmt)
    (hv : v ≠ Val.null) : ∃ s, (validate ext v fmt).1 = Val.str s := by
  simp only [validate]
  rw [if_neg (fun hc => hv hc.2), if_neg hv]
  by_cases hemp : Fmt.not_empty ∈ fmt ∧ pyStr v = ""
  · rw [if_pos hemp]; exact ⟨pyStr v, rfl⟩
  · rw [if_neg hemp]
    by_cases hs : pyStr v = ""
    · rw [if_pos hs]; exact ⟨pyStr v, rfl⟩
    · rw [if_neg hs]; exact ⟨_, rfl⟩

/-- Every `validate` result value is `None` or a string. -/
theorem validate_val_shape (ext : ExtVal) (v : Val) (fmt : List Fmt) :
    (validate ext v fmt).1 = Val.null ∨ ∃ s, (validate ext v fmt).1 = Val.str s := by
  by_cases hv : v = Val.null
  · subst hv
    by_cases h : Fmt.not_null ∈ fmt
    · left
      unfold validate
      rw [if_pos ⟨h, rfl⟩]
    · left
      unfold validate
      rw [if_neg (fun hc => h hc.1), if_pos rfl]
  · exact Or.inr (validate_str_of_ne_null ext v fmt hv)

/-- A format tag other than `float`, `ufloat` and `bool` never changes the
value being validated. -/
theorem vStep_fst_of_not_transforming (ext : ExtVal) (st : String × Option String)
    (f : Fmt) (h1 : f ≠ Fmt.float) (h2 : f ≠ Fmt.ufloat) (h3 : f ≠ Fmt.bool) :
    (vStep ext st f).1 = st.1 := by
  cases f
  case float => exact absurd rfl h1
  case ufloat => exact absurd rfl h2
  case bool => exact absurd rfl h3
  all_goals first
    | rfl
    | (rw [vStep]; split <;> rfl)

/-- The format loop preserves the value when no transforming tag occurs. -/
theorem foldl_vStep_fst (ext : ExtVal) :
    ∀ (fmt : List Fmt) (st : String × Option String),
      Fmt.float ∉ fmt → Fmt.ufloat ∉ fmt → Fmt.bool ∉ fmt →
      (fmt.foldl (vStep ext) st).1 = st.1 := by
  intro fmt
  induction fmt with
  | nil => intro st _ _ _; rfl
  | cons f rest ih =>
    intro st h1 h2 h3
    rw [List.foldl_cons]
    have hf1 : f ≠ Fmt.float := by rintro rfl; exact h1 (List.mem_cons_self _ _)
    have hf2 : f ≠ Fmt.ufloat := by rintro rfl; exact h2 (List.mem_cons_self _ _)
    have hf3 : f ≠ Fmt.bool := by rintro rfl; exact h3 (List.mem_cons_self _ _)
    rw [ih (vStep ext st f) (fun hm => h1 (List.mem_cons_of_mem f hm))
      (fun hm => h2 (List.mem_cons_of_mem f hm)) (fun hm => h3 (List.mem_cons_of_mem f hm))]
    exact vStep_fst_of_not_transforming ext st f hf1 hf2 hf3

/-- A column undeclared in the schema never enters the validated row. -/
theorem foldl_vdStep_lookup_none (ext : ExtVal) (schema : Schema) (c : String)
    (hc : List.lookup c schema = none) :
    ∀ (row : Row) (acc : Row × ErrDict), List.lookup c acc.1 = none →
      List.lookup c (row.foldl (vdStep ext schema) acc).1 = none := by
  intro row
  induction row with
  | nil => intro acc h; exact h
  | cons p rest ih =>
    intro acc h
    rw [List.foldl_cons]
    refine ih (vdStep ext schema acc p) ?_
    rw [vdStep]
    cases hp : List.lookup p.1 schema with
    | none => exact h
    | some fmt =>
      have hne : c ≠ p.1 := by
        intro hq
        rw [hq, hp] at hc
        cases hc
      exact lookup_append_none acc.1 c p.1 _ h hne

/-- Every value of the validated row is `None` or a string. -/
theorem foldl_vdStep_shape (ext : ExtVal) (schema : Schema) :
    ∀ (row : Row) (acc : Row × ErrDict),
      (∀ q ∈ acc.1, q.2 = Val.null ∨ ∃ s, q.2 = Val.str s) →
      ∀ q ∈ (row.foldl (vdStep ext schema) acc).1,
        q.2 = Val.null ∨ ∃ s, q.2 = Val.str s := by
  intro row
  induction row with
  | nil => intro acc h; exact h
  | cons p rest ih =>
    intro acc h
    rw [List.foldl_cons]
    refine ih (vdStep ext schema acc p) ?_
    rw [vdStep]
    cases hp : List.lookup p.1 schema with
    | none => exact h
    | some fmt =>
      intro q hq
      rcases List.mem_append.mp hq with hq1 | hq2
      · exact h q hq1
      · rcases List.mem_singleton.mp hq2 with rfl
        exact validate_val_shape ext p.2 fmt

/-- A successful lookup returns one of the stored values. -/
theorem lookup_val_prop (P : Val → Prop) :
    ∀ (l : Row), (∀ q ∈ l, P q.2) → ∀ (c : String) (y : Val),
      List.lookup c l = some y → P y := by
  intro l
  induction l with
  | nil => intro _ c y h; cases h
  | cons q rest ih =>
    intro hall c y h
    obtain ⟨k, v⟩ := q
    by_cases hck : c = k
    · subst hck
      simp [List.lookup] at h
      subst h
      exact hall (c, v) (by simp)
    · have hb : (c == k) = false := by simp [hck]
      simp only [List.lookup, hb] at h
      exact ih (fun q hq => hall q (List.mem_cons_of_mem _ hq)) c y h

/-- Every value row built by the `_split_col_value` loop holds only `None`
or string values. -/
theorem splitGo_values_shape (ext : ExtVal) (schema : Schema) :
    ∀ (rows : List Row) validated cols values errors out,
      splitGo ext schema rows validated cols values errors = Except.ok out →
      (∀ row ∈ values, ∀ x ∈ row, x = Val.null ∨ ∃ s, x = Val.str s) →
      ∀ row ∈ out.2.2.1, ∀ x ∈ row, x = Val.null ∨ ∃ s, x = Val.str s := by
  intro rows
  induction rows with
  | nil =>
    intro validated cols values errors out h hval
    rw [splitGo] at h
    cases h
    exact hval
  | cons d rest ih =>
    intro validated cols values errors out h hval
    have hrow : ∀ (K : List String) (x : Val),
        x ∈ K.map (fun c => (List.lookup c (validateData ext schema d).1).getD Val.null) →
        x = Val.null ∨ ∃ s, x = Val.str s := by
      intro K x hx
      obtain ⟨c, _, rfl⟩ := List.mem_map.mp hx
      cases hl : List.lookup c (validateData ext schema d).1 with
      | none => exact Or.inl rfl
      | some y =>
        have hy : y = Val.null ∨ ∃ s, y = Val.str s := by
          refine lookup_val_prop (fun z => z = Val.null ∨ ∃ s, z = Val.str s)
            (validateData ext schema d).1 ?_ c y hl
          exact foldl_vdStep_shape ext schema d ([], []) (by intro q hq; cases hq)
        simpa using hy
    simp only [splitGo] at h
    split at h
    · exact ih _ _ _ _ _ h hval
    · split at h
      · refine ih _ _ _ _ _ h ?_
        intro row hrw x hx
        rcases List.mem_append.mp hrw with h1 | h2
        · exact hval row h1 x hx
        · rcases List.mem_singleton.mp h2 with rfl
          exact hrow _ x hx
      · split at h
        · refine ih _ _ _ _ _ h ?_
          intro row hrw x hx
          rcases List.mem_append.mp hrw with h1 | h2
          · exact hval row h1 x hx
          · rcases List.mem_singleton.mp h2 with rfl
            exact hrow _ x hx
        · cases h

/-- C10: for every non-`None` input value on a declared column, the value
bound into the statement is the string `str(v)`, possibly normalized by the
column's format tags — a `bool` column maps true/"1" to "1" and false/"0" to
"0"; `float`/`ufloat` columns replace "," with "." and append "0" after a
trailing "." — and is unchanged when no transforming tag occurs; non-`None`
values are never kept in their original non-string type (every bound value
is `None` or a string), and values for undeclared columns are silently
dropped from the row. -/
theorem validated_values_are_normalized_strings (ext : ExtVal) (v : Val)
    (fmt : List Fmt) (hv : v ≠ Val.null) :
    (∃ s, (validate ext v fmt).1 = Val.str s) ∧
    (Fmt.float ∉ fmt → Fmt.ufloat ∉ fmt → Fmt.bool ∉ fmt →
      (validate ext v fmt).1 = Val.str (pyStr v)) ∧
    (pyStr v ≠ "" → (pyLower (pyStr v) = "true" ∨ pyStr v = "1") →
      validate ext v [Fmt.bool] = (Val.str "1", none)) ∧
    (pyStr v ≠ "" → (pyLower (pyStr v) = "false" ∨ pyStr v = "0") →
      validate ext v [Fmt.bool] = (Val.str "0", none)) ∧
    (pyStr v ≠ "" → (validate ext v [Fmt.float]).1 = Val.str (floatNorm (pyStr v))) ∧
    (pyStr v ≠ "" → (validate ext v [Fmt.ufloat]).1 = Val.str (floatNorm (pyStr v))) ∧
    (∀ (schema : Schema) (row : Row) (c : String), List.lookup c schema = none →
      List.lookup c (validateData ext schema row).1 = none) ∧
    (∀ (schema : Schema) (data : List Row) validated cols values,
      splitColValue ext schema data = Except.ok (validated, cols, values) →
      ∀ row ∈ values, ∀ x ∈ row, x = Val.null ∨ ∃ s, x = Val.str s) := by
  refine ⟨validate_str_of_ne_null ext v fmt hv, ?_, ?_, ?_, ?_, ?_, ?_, ?_⟩
  · intro h1 h2 h3
    simp only [validate]
    rw [if_neg (fun hc => hv hc.2), if_neg hv]
    by_cases hemp : Fmt.not_empty ∈ fmt ∧ pyStr v = ""
    · rw [if_pos hemp, hemp.2]
    · rw [if_neg hemp]
      by_cases hs : pyStr v = ""
      · rw [if_pos hs, hs]
      · rw [if_neg hs]
        rw [foldl_vStep_fst ext fmt (pyStr v, none) h1 h2 h3]
  · intro hs htrue
    have hcond : (pyLower (pyStr v) = "true" || pyStr v = "1") = true := by
      rcases htrue with h | h <;> simp [h]
    simp [validate, hv, hs, vStep, hcond]
  · intro hs hfalse
    have hcond : (pyLower (pyStr v) = "true" || pyStr v = "1") = false := by
      rcases hfalse with h | h
      · have h2 : pyStr v ≠ "1" := by
          intro h1
          rw [h1] at h
          exact absurd h (by decide)
        simp [h, h2]
      · have h1 : pyLower (pyStr v) ≠ "true" := by rw [h]; decide
        have h2 : pyStr v ≠ "1" := by rw [h]; decide
        simp [h1, h2]
    have hcond2 : (pyLower (pyStr v) = "false" || pyStr v = "0") = true := by
      rcases hfalse with h | h <;> simp [h]
    simp [validate, hv, hs, vStep, hcond, hcond2]
  · intro hs
    simp only [validate]
    rw [if_neg (fun hc => hv hc.2), if_neg hv, if_neg (by simp [hs]), if_neg hs]
    simp only [List.foldl_cons, List.foldl_nil, vStep]
    split <;> rfl
  · intro hs
    simp only [validate]
    rw [if_neg (fun hc => hv hc.2), if_neg hv, if_neg (by simp [hs]), if_neg hs]
    simp only [List.foldl_cons, List.foldl_nil, vStep]
    split <;> rfl
  · intro schema row c hc
    exact foldl_vdStep_lookup_none ext schema c hc row ([], []) rfl
  · intro schema data validated cols values h row hrw x hx
    unfold splitColValue at h
    cases hg : splitGo ext schema data [] [] [] [] with
    | error e => rw [hg] at h; cases h
    | ok out =>
      rw [hg] at h
      obtain ⟨v', c', vals', errs'⟩ := out
      have h' : (if errs'.all (fun e => e = []) then
          (if c' = [] then Except.error TableErr.noValidColumns
           else Except.ok (v', c', vals'))
          else Except.error (TableErr.validation errs'))
          = Except.ok (validated, cols, values) := h
      have hsh := splitGo_values_shape ext schema data [] [] [] [] _ hg
        (by intro r hr; cases hr)
      cases hb : errs'.all (fun e => e = []) with
      | false =>
        rw [if_neg (by simp [hb])] at h'
        cases h'
      | true =>
        rw [if_pos hb] at h'
        by_cases hcc : c' = []
        · rw [if_pos hcc] at h'
          cases h'
        · rw [if_neg hcc] at h'
          cases h'
          exact hsh row hrw x hx

/-- Witness for C10: a Python `True` on a bool column is bound as the string
"1", and "3," on a float column becomes "3.0". -/
theorem validated_values_are_normalized_strings_witness :
    (∃ s, (validate extNone (Val.bool true) [Fmt.bool]).1 = Val.str s) ∧
    validate extNone (Val.bool true) [Fmt.bool] = (Val.str "1", none) ∧
    (validate extNone (Val.str "3,") [Fmt.float]).1 = Val.str (floatNorm (pyStr (Val.str "3,"))) := by
  have h1 := validated_values_are_normalized_strings extNone (Val.bool true) [Fmt.bool]
    (by decide)
  have h2 := validated_values_are_normalized_strings extNone (Val.str "3,") [Fmt.float]
    (by decide)
  refine ⟨h1.1, ?_, ?_⟩
  · exact h1.2.2.1 (by decide) (Or.inl (by decide))
  · exact h2.2.2.2.2.1 (by decide)

end Pysdbd
